import Mathlib

/-!
Verification of the webtools PDF workspace against its source.

The definitions below are shallow embeddings of the functions in
`src/components/pdf-viewer/pdf-container.tsx`, `pdf-tools.tsx`,
`pdf-viewer.tsx`, `src/lib/utils.ts` and the container variant in
`src/unnamed/part_000`.  JavaScript numbers are modelled as `Int`/`Nat`,
`parseInt` results as `Option Int` (`none` = `NaN`), and the fallible
pdf-lib engine calls (`PDFDocument.load`, `copyPages`) as `Option`-returning
functions.
-/

namespace WebTools

/-- A browser `File` as consumed by ingestion: display name, byte size and
declared MIME type (`file.type`). -/
structure JsFile where
  name : String
  size : Nat
  type : String
  deriving DecidableEq, Repr

/-- Predicate `isValidPDF` from `src/lib/utils.ts`: `file.type === "application/pdf"`. -/
def isValidPDF (file : JsFile) : Bool :=
  file.type == "application/pdf"

/-- The `files` update performed by `addFile` in `pdf-container.tsx`
(lines 30-46): reject non-PDF MIME types, then append unless an entry with
the same name and size already exists. -/
def addFile (prev : List JsFile) (file : JsFile) : List JsFile :=
  if !isValidPDF file then prev
  else if prev.any (fun f => f.name == file.name && f.size == file.size) then prev
  else prev ++ [file]

/-- No two entries of the list agree on both name and byte size. -/
def NoDupNameSize (l : List JsFile) : Prop :=
  l.Pairwise (fun a b => ¬(a.name = b.name ∧ a.size = b.size))

theorem addFile_any_eq_false {prev : List JsFile} {file : JsFile}
    (h : prev.any (fun f => f.name == file.name && f.size == file.size) = false) :
    ∀ f ∈ prev, ¬(f.name = file.name ∧ f.size = file.size) := by
  intro f hf
  have h' := (List.any_eq_false).mp h f hf
  simpa [Bool.and_eq_true, beq_iff_eq] using h'

theorem addFile_preserves_noDup {l : List JsFile} (file : JsFile)
    (h : NoDupNameSize l) : NoDupNameSize (addFile l file) := by
  unfold addFile
  by_cases hv : isValidPDF file = true
  · by_cases hany : l.any (fun f => f.name == file.name && f.size == file.size) = true
    · simpa [hv, hany] using h
    · have hany' : l.any (fun f => f.name == file.name && f.size == file.size) = false :=
        Bool.eq_false_iff.mpr hany
      simp only [hv, Bool.not_true, Bool.false_eq_true, if_false, hany']
      refine List.pairwise_append.mpr ⟨h, List.pairwise_singleton _ _, ?_⟩
      intro a ha b hb
      have hb' : b = file := by simpa using hb
      subst hb'
      exact addFile_any_eq_false hany' a ha
  · have hv' : isValidPDF file = false := Bool.eq_false_iff.mpr hv
    simpa [hv'] using h

theorem foldl_addFile_noDup (docs : List JsFile) :
    ∀ l : List JsFile, NoDupNameSize l → NoDupNameSize (docs.foldl addFile l) := by
  induction docs with
  | nil => intro l h; simpa using h
  | cons d ds ih =>
      intro l h
      exact ih (addFile l d) (addFile_preserves_noDup d h)

/-- Claim C4: adding a document whose name and byte size both match an
existing entry leaves the list unchanged; adding a document that matches no
existing entry on name+size (in particular one with the same name but a
different size) appends it; and every state reachable from the empty list
by a sequence of `addFile` operations holds no two documents with identical
name and size. -/
theorem addFile_dedup :
    (∀ prev file, (∃ f ∈ prev, f.name = file.name ∧ f.size = file.size) →
        addFile prev file = prev)
  ∧ (∀ prev file, isValidPDF file = true →
        (∀ f ∈ prev, ¬(f.name = file.name ∧ f.size = file.size)) →
        addFile prev file = prev ++ [file])
  ∧ (∀ docs : List JsFile, NoDupNameSize (docs.foldl addFile [])) := by
  refine ⟨?_, ?_, ?_⟩
  · intro prev file ⟨f, hf, hname, hsize⟩
    unfold addFile
    have hany : prev.any (fun f => f.name == file.name && f.size == file.size) = true :=
      List.any_eq_true.mpr ⟨f, hf, by simp [hname, hsize]⟩
    by_cases hv : isValidPDF file = true
    · simp [hv, hany]
    · simp [Bool.eq_false_iff.mpr hv]
  · intro prev file hv hnone
    have hany : prev.any (fun f => f.name == file.name && f.size == file.size) = false := by
      cases h : prev.any (fun f => f.name == file.name && f.size == file.size) with
      | false => rfl
      | true =>
          rcases List.any_eq_true.mp h with ⟨f, hf, hp⟩
          have hfp : f.name = file.name ∧ f.size = file.size := by
            simpa [Bool.and_eq_true, beq_iff_eq] using hp
          exact absurd hfp (hnone f hf)
    unfold addFile
    simp [hv, hany]
  · intro docs
    exact foldl_addFile_noDup docs [] (List.Pairwise.nil)

/-- Witness for C4 at concrete inputs: a duplicate name+size upload is
dropped, a same-name different-size upload is appended, and a three-upload
sequence containing a duplicate ends with no name+size collision. -/
theorem addFile_dedup_witness :
    addFile [⟨"a.pdf", 100, "application/pdf"⟩] ⟨"a.pdf", 100, "application/pdf"⟩
      = [⟨"a.pdf", 100, "application/pdf"⟩]
  ∧ addFile [⟨"a.pdf", 100, "application/pdf"⟩] ⟨"a.pdf", 200, "application/pdf"⟩
      = [⟨"a.pdf", 100, "application/pdf"⟩, ⟨"a.pdf", 200, "application/pdf"⟩]
  ∧ NoDupNameSize
      ([(⟨"a.pdf", 100, "application/pdf"⟩ : JsFile),
        ⟨"a.pdf", 100, "application/pdf"⟩,
        ⟨"a.pdf", 200, "application/pdf"⟩].foldl addFile []) :=
  ⟨addFile_dedup.1 _ _ ⟨⟨"a.pdf", 100, "application/pdf"⟩, by simp, by simp⟩,
   addFile_dedup.2.1 _ _ (by decide) (by decide),
   addFile_dedup.2.2 _⟩

/-- Claim C10: ingestion accepts a file iff its declared MIME type is
exactly `application/pdf`; the file name is never consulted, so a
PDF-typed file with any name is appended (when not a name+size duplicate)
and a non-PDF-typed file is rejected whatever its name. -/
theorem isValidPDF_mime_only :
    (∀ file : JsFile, isValidPDF file = true ↔ file.type = "application/pdf")
  ∧ (∀ n₁ n₂ size t, isValidPDF ⟨n₁, size, t⟩ = isValidPDF ⟨n₂, size, t⟩)
  ∧ (∀ prev file, file.type = "application/pdf" →
        (∀ f ∈ prev, ¬(f.name = file.name ∧ f.size = file.size)) →
        addFile prev file = prev ++ [file])
  ∧ (∀ prev file, file.type ≠ "application/pdf" → addFile prev file = prev) := by
  refine ⟨?_, ?_, ?_, ?_⟩
  · intro file
    simp [isValidPDF]
  · intro n₁ n₂ size t
    simp [isValidPDF]
  · intro prev file htype hnone
    exact addFile_dedup.2.1 prev file (by simp [isValidPDF, htype]) hnone
  · intro prev file htype
    unfold addFile
    have : isValidPDF file = false := by
      simpa [isValidPDF] using htype
    simp [this]

/-- Witness for C10 at concrete inputs: a file named without `.pdf` but
carrying the PDF MIME type is added; a file named `doc.pdf` with MIME type
`text/plain` is rejected. -/
theorem isValidPDF_mime_only_witness :
    isValidPDF ⟨"notes.txt", 5, "application/pdf"⟩ = true
  ∧ addFile [] ⟨"notes.txt", 5, "application/pdf"⟩ = [⟨"notes.txt", 5, "application/pdf"⟩]
  ∧ addFile [] ⟨"doc.pdf", 5, "text/plain"⟩ = [] :=
  ⟨(isValidPDF_mime_only.1 _).mpr rfl,
   isValidPDF_mime_only.2.2.1 [] _ rfl (by simp),
   isValidPDF_mime_only.2.2.2 [] _ (by decide)⟩

/-! ## Workspace store (container variant `src/unnamed/part_000`) -/

/-- A file as tracked by the `part_000` container: the `FileWithId`
augmentation of a browser file with a stable id (from `uuidv4`, modelled
as a `Nat`) and a cached `totalPages`. -/
structure FileWithId where
  id : Nat
  name : String
  size : Nat
  totalPages : Nat
  deriving DecidableEq, Repr

/-- One `{ start, end }` record of the `fileRanges` map (`end` is a Lean
keyword, so the field is called `stop`). -/
structure FileRange where
  start : Nat
  stop : Nat
  deriving DecidableEq, Repr

/-- The `part_000` container state: the `files` list, the `currentFile`
pointer and the `fileRanges` record keyed by file id. -/
structure ContainerState where
  files : List FileWithId
  currentFile : Option FileWithId
  fileRanges : List (Nat × FileRange)
  deriving DecidableEq, Repr

/-- JS object indexing `fileRanges[id]`: first association with the key
(the guarded insert in `selectPDF` never duplicates a key, so this is
exactly JS object-key semantics). -/
def rangesLookup (m : List (Nat × FileRange)) (k : Nat) : Option FileRange :=
  match m with
  | [] => none
  | (k', v) :: rest => if k' == k then some v else rangesLookup rest k

/-- Operation `selectPDF` from `src/unnamed/part_000` (lines 35-43): set
`currentFile`; if a file is given and `fileRanges` has no entry for its id,
seed `{ start: 1, end: file.totalPages }`. -/
def selectPDF (st : ContainerState) (file : Option FileWithId) : ContainerState :=
  match file with
  | some f =>
      if (rangesLookup st.fileRanges f.id).isNone then
        { st with currentFile := some f,
                  fileRanges := (f.id, ⟨1, f.totalPages⟩) :: st.fileRanges }
      else { st with currentFile := some f }
  | none => { st with currentFile := none }

/-- JS `Array.findIndex` by file id (`files.findIndex(f => f === file)`;
object identity is modelled by id equality, ids being unique per created
file): `-1` when absent. -/
def findIndexById (files : List FileWithId) (fid : Nat) : Int :=
  match files with
  | [] => -1
  | f :: rest =>
      if f.id == fid then 0
      else
        let r := findIndexById rest fid
        if r < 0 then -1 else r + 1

/-- Operation `handleDelete` from `src/unnamed/part_000` (lines 95-128): record the
pre-deletion index, remove the file, pick the immediate predecessor when
the deleted file was not first, else the new first file, else `null`;
drop the file's range entry and `selectPDF` the chosen next file.  (The
seeding guard inside `selectPDF` reads the pre-update `fileRanges` in the
source; since the deleted id and the next file's id differ, the guard's
outcome is the same on the post-delete map used here.) -/
def handleDelete (st : ContainerState) (file : FileWithId) : ContainerState :=
  let currentIndex := findIndexById st.files file.id
  let newFiles := st.files.filter (fun f => !(f.id == file.id))
  let nextFile : Option FileWithId :=
    if newFiles.length > 0 then
      if currentIndex > 0 then newFiles[(currentIndex - 1).toNat]?
      else newFiles[0]?
    else none
  selectPDF
    { st with files := newFiles,
              fileRanges := st.fileRanges.filter (fun p => !(p.1 == file.id)) }
    nextFile

theorem rangesLookup_eq_none_keys : ∀ {m : List (Nat × FileRange)} {k : Nat},
    rangesLookup m k = none → ∀ p ∈ m, (p.1 == k) = false := by
  intro m
  induction m with
  | nil => intro k _ p hp; cases hp
  | cons q rest ih =>
      intro k h p hp
      rcases q with ⟨qk, qv⟩
      by_cases hq : (qk == k) = true
      · simp only [rangesLookup] at h
        simp [hq] at h
      · have hq' : (qk == k) = false := Bool.eq_false_iff.mpr hq
        simp only [rangesLookup] at h
        simp only [hq', Bool.false_eq_true, if_false] at h
        rcases List.mem_cons.mp hp with hp | hp
        · subst hp; simpa using hq'
        · exact ih h p hp

theorem selectPDF_currentFile (st : ContainerState) (file : Option FileWithId) :
    (selectPDF st file).currentFile = file := by
  cases file with
  | none => rfl
  | some f =>
      by_cases h : (rangesLookup st.fileRanges f.id).isNone = true <;>
        simp [selectPDF, h]

/-- Claim C2: with documents `[A, B, C]` in insertion order, deleting the
active document reselects as follows — deleting active `B` yields active
`A` (its immediate predecessor in the pre-deletion order); deleting active
`A` (first) yields active `B` (the new first document); deleting the only
remaining document yields active `none`. -/
theorem handleDelete_reselect_policy (A B C : FileWithId)
    (rs : List (Nat × FileRange))
    (hAB : A.id ≠ B.id) (hBC : B.id ≠ C.id) (hAC : A.id ≠ C.id) :
    (handleDelete ⟨[A, B, C], some B, rs⟩ B).currentFile = some A
  ∧ (handleDelete ⟨[A, B, C], some A, rs⟩ A).currentFile = some B
  ∧ (handleDelete ⟨[A], some A, rs⟩ A).currentFile = none := by
  have hab : (A.id == B.id) = false := beq_eq_false_iff_ne.mpr hAB
  have hcb : (C.id == B.id) = false := beq_eq_false_iff_ne.mpr (Ne.symm hBC)
  have hba : (B.id == A.id) = false := beq_eq_false_iff_ne.mpr (Ne.symm hAB)
  have hca : (C.id == A.id) = false := beq_eq_false_iff_ne.mpr (Ne.symm hAC)
  refine ⟨?_, ?_, ?_⟩ <;>
    simp [handleDelete, selectPDF_currentFile, findIndexById, hab, hcb, hba, hca]

/-- Witness for C2 at concrete documents with distinct ids. -/
theorem handleDelete_reselect_policy_witness :
    (handleDelete ⟨[⟨1, "A", 10, 3⟩, ⟨2, "B", 20, 4⟩, ⟨3, "C", 30, 5⟩],
        some ⟨2, "B", 20, 4⟩, []⟩ ⟨2, "B", 20, 4⟩).currentFile = some ⟨1, "A", 10, 3⟩
  ∧ (handleDelete ⟨[⟨1, "A", 10, 3⟩, ⟨2, "B", 20, 4⟩, ⟨3, "C", 30, 5⟩],
        some ⟨1, "A", 10, 3⟩, []⟩ ⟨1, "A", 10, 3⟩).currentFile = some ⟨2, "B", 20, 4⟩
  ∧ (handleDelete ⟨[⟨1, "A", 10, 3⟩], some ⟨1, "A", 10, 3⟩, []⟩
        ⟨1, "A", 10, 3⟩).currentFile = none :=
  handleDelete_reselect_policy ⟨1, "A", 10, 3⟩ ⟨2, "B", 20, 4⟩ ⟨3, "C", 30, 5⟩ []
    (by decide) (by decide) (by decide)

/-- Claim C3: selecting a document with no range entry yet seeds exactly
one range `{ start := 1, stop := totalPages }` for it; selecting a document
that already has a range entry leaves `fileRanges` unchanged; and selecting
the same document twice in a row yields the same state as selecting it
once. -/
theorem selectPDF_seeding (st : ContainerState) (f : FileWithId) :
    (rangesLookup st.fileRanges f.id = none →
        rangesLookup (selectPDF st (some f)).fileRanges f.id = some ⟨1, f.totalPages⟩
      ∧ ((selectPDF st (some f)).fileRanges.filter (fun p => p.1 == f.id)).length = 1)
  ∧ (∀ r, rangesLookup st.fileRanges f.id = some r →
        (selectPDF st (some f)).fileRanges = st.fileRanges)
  ∧ selectPDF (selectPDF st (some f)) (some f) = selectPDF st (some f) := by
  refine ⟨?_, ?_, ?_⟩
  · intro h
    have hkeys : ∀ p ∈ st.fileRanges, (p.1 == f.id) = false :=
      rangesLookup_eq_none_keys h
    constructor
    · simp [selectPDF, h, rangesLookup]
    · have hnone : (rangesLookup st.fileRanges f.id).isNone = true := by
        simp [h]
      simp only [selectPDF, hnone, if_pos]
      have hfilter : st.fileRanges.filter (fun p => p.1 == f.id) = [] :=
        List.filter_eq_nil_iff.mpr (by
          intro p hp
          simp [hkeys p hp])
      simp [hfilter]
  · intro r h
    simp [selectPDF, h]
  · by_cases h : (rangesLookup st.fileRanges f.id).isNone = true
    · simp [selectPDF, h, rangesLookup]
    · simp [selectPDF, h]

/-- Witness for C3: seeding a 7-page document on first selection, leaving
an existing range entry alone on re-selection, and idempotence of
re-selecting the same document. -/
theorem selectPDF_seeding_witness :
    (rangesLookup (selectPDF ⟨[], none, []⟩ (some ⟨1, "a.pdf", 10, 7⟩)).fileRanges 1
        = some ⟨1, 7⟩
      ∧ ((selectPDF ⟨[], none, []⟩ (some ⟨1, "a.pdf", 10, 7⟩)).fileRanges.filter
          (fun p => p.1 == 1)).length = 1)
  ∧ (selectPDF ⟨[], none, [(1, ⟨2, 5⟩)]⟩ (some ⟨1, "a.pdf", 10, 7⟩)).fileRanges
      = [(1, ⟨2, 5⟩)]
  ∧ selectPDF (selectPDF ⟨[], none, []⟩ (some ⟨1, "a.pdf", 10, 7⟩)) (some ⟨1, "a.pdf", 10, 7⟩)
      = selectPDF ⟨[], none, []⟩ (some ⟨1, "a.pdf", 10, 7⟩) :=
  ⟨(selectPDF_seeding ⟨[], none, []⟩ ⟨1, "a.pdf", 10, 7⟩).1 rfl,
   (selectPDF_seeding ⟨[], none, [(1, ⟨2, 5⟩)]⟩ ⟨1, "a.pdf", 10, 7⟩).2.1 ⟨2, 5⟩ rfl,
   (selectPDF_seeding ⟨[], none, []⟩ ⟨1, "a.pdf", 10, 7⟩).2.2⟩

/-! ## Render window planner (`pdf-viewer.tsx`, `PreviewWindow`) -/

/-- What one laid-out page's markup contains.  `renderPage` in
`pdf-viewer.tsx` (lines 87-134) returns one of two JSX blocks; this record
registers which branch was taken and which inner layers the returned block
contains. -/
structure RenderedPage where
  placeholderBranch : Bool
  canvasChildren : Bool
  textChildren : Bool
  annotChildren : Bool
  deriving DecidableEq, Repr

/-- The `start`/`end` pair computed at the top of `renderPage`
(`pdf-viewer.tsx` lines 90-99), with the buffer size as a parameter
(`renderPage` itself fixes it to 250). -/
def renderWindow (bufferSize pageIndex : Int)
    (selectedRange : Option (Int × Int)) : Int × Int :=
  match selectedRange with
  | some (s, e) => (max (pageIndex - bufferSize) s, min (pageIndex + bufferSize) e)
  | none => (pageIndex - bufferSize, pageIndex + bufferSize)

/-- Function `renderPage` from `pdf-viewer.tsx` (lines 87-134): compute the window
with `bufferSize = 250`, then branch on `pageNumber < start || pageNumber >
end`.  Both JSX branches in the source contain `canvasLayer.children`,
`textLayer.children` and `annotationLayer.children`, so both are embedded
with all three layer flags set. -/
def renderPage (pageIndex : Int) (selectedRange : Option (Int × Int)) : RenderedPage :=
  let w := renderWindow 250 pageIndex selectedRange
  let pageNumber := pageIndex + 1
  if pageNumber < w.1 || pageNumber > w.2 then
    { placeholderBranch := true, canvasChildren := true,
      textChildren := true, annotChildren := true }
  else
    { placeholderBranch := false, canvasChildren := true,
      textChildren := true, annotChildren := true }

/-- Claim C1, what actually holds and what fails (code bug).  The window
formula `[max(p − B, s), min(p + B, e)]` is exactly the code's, and at
`B = 5`, range `[10, 20]`, page 12 it gives `[10, 17]`.  But a page outside
the active range — page number 25 with range `[10, 20]`, the laid-out index
24 — takes the out-of-window branch and still receives markup with all
three inner layers present, identical to the in-window markup: the
"placeholder" omits nothing. -/
theorem renderPage_placeholder_keeps_content :
    (∀ B p s e : Int, renderWindow B p (some (s, e))
        = (max (p - B) s, min (p + B) e))
  ∧ renderWindow 5 12 (some (10, 20)) = (10, 17)
  ∧ (renderPage 24 (some (10, 20))).placeholderBranch = true
  ∧ ((renderPage 24 (some (10, 20))).canvasChildren = true
      ∧ (renderPage 24 (some (10, 20))).textChildren = true
      ∧ (renderPage 24 (some (10, 20))).annotChildren = true)
  ∧ (renderPage 24 (some (10, 20))).canvasChildren
      = (renderPage 12 (some (10, 20))).canvasChildren := by
  refine ⟨fun B p s e => rfl, by decide, by decide, by decide, by decide⟩

/-- The navigation-clamp effect in `PreviewWindow` (`pdf-viewer.tsx` lines
54-66): with an active range, jump to 0-based index `start = s − 1` when the
0-based current page is below it, to `end = e − 1` when above it, and do
nothing otherwise; with no active range, no instruction. -/
def navInstruction (currentPage : Int) (selectedRange : Option (Int × Int)) :
    Option Int :=
  match selectedRange with
  | none => none
  | some (s, e) =>
      let start := s - 1
      let stop := e - 1
      if currentPage < start then some start
      else if currentPage > stop then some stop
      else none

/-- Claim C8: for an active range `[s, e]` and 1-based current page `p`
(the code stores it 0-based as `p − 1`), the planner jumps to page `s`
(0-based index `s − 1`) when `p < s`, to page `e` (0-based `e − 1`) when
`p > e`, and issues no instruction when `s ≤ p ≤ e`.  The hypothesis
`s ≤ e` holds for every active range the program passes in: `pdf-tools`
only emits ranges validated with `start <= end`. -/
theorem navInstruction_clamp (s e p : Int) (hse : s ≤ e) :
    (p < s → navInstruction (p - 1) (some (s, e)) = some (s - 1))
  ∧ (p > e → navInstruction (p - 1) (some (s, e)) = some (e - 1))
  ∧ (s ≤ p → p ≤ e → navInstruction (p - 1) (some (s, e)) = none) := by
  refine ⟨?_, ?_, ?_⟩
  · intro h
    simp only [navInstruction]
    rw [if_pos (by omega)]
  · intro h
    simp only [navInstruction]
    rw [if_neg (by omega), if_pos (by omega)]
  · intro h₁ h₂
    simp only [navInstruction]
    rw [if_neg (by omega), if_neg (by omega)]

/-- Witness for C8: with range `[10, 20]` — at page 5 jump to page 10
(0-based 9), at page 25 jump to page 20 (0-based 19), at page 12 no
instruction. -/
theorem navInstruction_clamp_witness :
    navInstruction (5 - 1) (some (10, 20)) = some 9
  ∧ navInstruction (25 - 1) (some (10, 20)) = some 19
  ∧ navInstruction (12 - 1) (some (10, 20)) = none :=
  ⟨(navInstruction_clamp 10 20 5 (by decide)).1 (by decide),
   (navInstruction_clamp 10 20 25 (by decide)).2.1 (by decide),
   (navInstruction_clamp 10 20 12 (by decide)).2.2 (by decide) (by decide)⟩

/-! ## Document operations (`pdf-tools.tsx`: extract and merge batches) -/

/-- A file's byte payload as the pdf-lib engine sees it: either a parseable
document carrying its page list, or malformed bytes on which
`PDFDocument.load` throws. -/
inductive PdfContent (α : Type) where
  | wellFormed (pages : List α)
  | malformed
  deriving DecidableEq, Repr

/-- A file handed to the document operations: name plus payload. -/
structure PdfFile (α : Type) where
  name : String
  content : PdfContent α
  deriving DecidableEq, Repr

/-- Engine call `PDFDocument.load`: the page list of a parseable payload; `none` is the
thrown parse error. -/
def loadPdf {α : Type} : PdfContent α → Option (List α)
  | .wellFormed pages => some pages
  | .malformed => none

/-- Engine call `pdf.getPageIndices()`: `[0, …, pageCount − 1]`. -/
def getPageIndices {α : Type} (pages : List α) : List Int :=
  (List.range pages.length).map (fun (i : Nat) => (i : Int))

/-- Engine call `copyPages(source, indices)`: the pages at the given 0-based indices in
index order; any out-of-range index is a thrown engine error (`none`). -/
def copyPages {α : Type} (pages : List α) : List Int → Option (List α)
  | [] => some []
  | i :: rest =>
      match (if 0 ≤ i then pages[i.toNat]? else none) with
      | none => none
      | some p => (copyPages pages rest).map (fun ps => p :: ps)

/-- One row of the extract form, holding the `parseInt` results of the two
text inputs (`none` = `NaN`; `end` is a Lean keyword, so the field is
called `stop`). -/
structure RangeInput where
  start : Option Int
  stop : Option Int
  deriving DecidableEq, Repr

/-- The validity filter of `handleExtractRanges` (`pdf-tools.tsx` lines
473-477): both bounds parse, `start > 0`, `end <= pageCount` and
`start <= end`. -/
def isValidRange (pageCount : Int) (r : RangeInput) : Bool :=
  match r.start, r.stop with
  | some s, some e => decide (s > 0) && decide (e ≤ pageCount) && decide (s ≤ e)
  | _, _ => false

/-- JS `String.replace(pat, repl)` with a string pattern: scan left to
right and replace the first occurrence only. -/
def replaceFirstChars (pat repl : List Char) : List Char → List Char
  | [] => []
  | c :: rest =>
      if pat.isPrefixOf (c :: rest) then repl ++ (c :: rest).drop pat.length
      else c :: replaceFirstChars pat repl rest

/-- String wrapper for `replaceFirstChars`. -/
def replaceFirst (s pat repl : String) : String :=
  ⟨replaceFirstChars pat.data repl.data s.data⟩

/-- The loop body of `handleExtractRanges` for one valid range
(`pdf-tools.tsx` lines 485-503): 0-based `start`/`end`, the index vector
`Array.from({length: end - start + 1}, (_, i) => start + i)`, `copyPages`
into a fresh document, and the generated
`<name without first ".pdf">_pages_<start+1>-<end+1>.pdf` file. -/
def extractOne {α : Type} (name : String) (sourcePages : List α) (r : RangeInput) :
    Option (PdfFile α) :=
  match r.start, r.stop with
  | some s, some e =>
      let start := s - 1
      let stop := e - 1
      let pageIndices := (List.range (stop - start + 1).toNat).map
        (fun (i : Nat) => start + (i : Int))
      match copyPages sourcePages pageIndices with
      | none => none
      | some copied =>
          some ⟨replaceFirst name ".pdf" "" ++ "_pages_" ++ toString (start + 1)
                  ++ "-" ++ toString (stop + 1) ++ ".pdf",
                .wellFormed copied⟩
  | _, _ => none

/-- Operation `handleExtractRanges` from `pdf-tools.tsx` (lines 469-511), as the list
of files it produces: keep the valid ranges; with none, finish with no
files; otherwise load the source — a parse error aborts the whole batch —
and extract each valid range in order. -/
def handleExtractRanges {α : Type} (currentFile : PdfFile α) (pageCount : Int)
    (ranges : List RangeInput) : Option (List (PdfFile α)) :=
  let validRanges := ranges.filter (isValidRange pageCount)
  if validRanges.isEmpty then some []
  else
    match loadPdf currentFile.content with
    | none => none
    | some sourcePages => validRanges.mapM (extractOne currentFile.name sourcePages)

/-- The `for` loop of `handleMergePDFs` (`pdf-tools.tsx` lines 451-456):
load each source in the given order (a parse error aborts), copy all of its
pages and append them to the accumulated target document. -/
def mergeLoop {α : Type} (acc : List α) : List (PdfFile α) → Option (List α)
  | [] => some acc
  | f :: rest =>
      match loadPdf f.content with
      | none => none
      | some pages =>
          match copyPages pages (getPageIndices pages) with
          | none => none
          | some copied => mergeLoop (acc ++ copied) rest

/-- Operation `handleMergePDFs` (`pdf-tools.tsx` lines 447-467): run the loop from an
empty target and serialize the result as one file named `merged.pdf`. -/
def handleMergePDFs {α : Type} (files : List (PdfFile α)) : Option (PdfFile α) :=
  (mergeLoop [] files).map (fun pages => ⟨"merged.pdf", .wellFormed pages⟩)

/-- The `try`/`catch` around the merge batch: `onMerge` fires only when the
engine succeeded; a thrown engine error is caught and the surrounding
workspace state is left as it was. -/
def runMergeBatch (α σ : Type) (st : σ) (deliver : σ → PdfFile α → σ)
    (files : List (PdfFile α)) : σ :=
  match handleMergePDFs files with
  | none => st
  | some merged => deliver st merged

/-- The `try`/`catch` around the extract batch: `onExtract` fires only when
extraction succeeded with at least one produced file. -/
def runExtractBatch (α σ : Type) (st : σ) (deliver : σ → List (PdfFile α) → σ)
    (currentFile : PdfFile α) (pageCount : Int) (ranges : List RangeInput) : σ :=
  match handleExtractRanges currentFile pageCount ranges with
  | none => st
  | some [] => st
  | some fs => deliver st fs

theorem copyPages_slice {α : Type} (pages : List α) :
    ∀ (n a : Nat), a + n ≤ pages.length →
      copyPages pages ((List.range n).map (fun (i : Nat) => ((a : Int) + (i : Int))))
        = some ((pages.drop a).take n) := by
  intro n
  induction n with
  | zero => intro a _; simp [copyPages]
  | succ n ih =>
      intro a ha
      have hlt : a < pages.length := by omega
      rw [List.range_succ_eq_map]
      simp only [List.map_cons, List.map_map]
      have hhead : ((a : Int) + ((0 : Nat) : Int)) = (a : Int) := by simp
      rw [hhead]
      have htail : (List.range n).map ((fun (i : Nat) => ((a : Int) + (i : Int))) ∘ Nat.succ)
          = (List.range n).map (fun (i : Nat) => (((a + 1 : Nat) : Int) + (i : Int))) := by
        refine List.map_congr_left ?_
        intro i _
        simp only [Function.comp]
        push_cast
        ring
      rw [htail]
      rw [copyPages]
      have hget : (if 0 ≤ (a : Int) then pages[((a : Int)).toNat]? else none)
          = some pages[a] := by
        rw [if_pos (by positivity)]
        simp [List.getElem?_eq_getElem hlt]
      rw [hget, ih (a + 1) (by omega), List.drop_eq_getElem_cons hlt,
        List.take_succ_cons]
      rfl

theorem copyPages_self {α : Type} (pages : List α) :
    copyPages pages (getPageIndices pages) = some pages := by
  have h := copyPages_slice pages pages.length 0 (by omega)
  have hidx : (List.range pages.length).map (fun (i : Nat) => (((0 : Nat) : Int) + (i : Int)))
      = getPageIndices pages := by
    unfold getPageIndices
    refine List.map_congr_left ?_
    intro i _
    simp
  rw [hidx] at h
  simpa using h

theorem mapM_eq_map_of_some {α β : Type} {f : α → Option β} {g : α → β} :
    ∀ {l : List α}, (∀ a ∈ l, f a = some (g a)) → l.mapM f = some (l.map g) := by
  intro l
  induction l with
  | nil => intro _; rfl
  | cons a l ih =>
      intro h
      rw [List.mapM_cons, h a (List.mem_cons_self a l), ih (fun b hb => h b (List.mem_cons_of_mem a hb))]
      rfl

/-- What §4.3 of the design asks of one extracted range: a file named
`<basename>_pages_<start>-<end>.pdf` with the 1-based bounds, containing
exactly the pages of the span `[start, end]`.  (The fallback arm is never
reached for a valid range.) -/
def specExtractOutput {α : Type} (name : String) (sourcePages : List α)
    (r : RangeInput) : PdfFile α :=
  match r.start, r.stop with
  | some s, some e =>
      ⟨replaceFirst name ".pdf" "" ++ "_pages_" ++ toString s ++ "-" ++ toString e
          ++ ".pdf",
       .wellFormed ((sourcePages.drop (s - 1).toNat).take (e - s + 1).toNat)⟩
  | _, _ => ⟨name, .malformed⟩

theorem extractOne_valid {α : Type} (name : String) (pages : List α)
    (pc : Int) (r : RangeInput) (hpc : pc = pages.length)
    (hv : isValidRange pc r = true) :
    extractOne name pages r = some (specExtractOutput name pages r) := by
  rcases r with ⟨os, oe⟩
  cases os with
  | none => simp [isValidRange] at hv
  | some s =>
    cases oe with
    | none => simp [isValidRange] at hv
    | some e =>
        have hv' : (0 < s ∧ e ≤ pc) ∧ s ≤ e := by
          simpa [isValidRange, Bool.and_eq_true, decide_eq_true_eq] using hv
        obtain ⟨⟨hs, he⟩, hse⟩ := hv'
        unfold extractOne
        have hcasta : ((s - 1).toNat : Int) = s - 1 := by omega
        have hidx : (List.range (e - 1 - (s - 1) + 1).toNat).map
              (fun (i : Nat) => (s - 1) + (i : Int))
            = (List.range (e - s + 1).toNat).map
              (fun (i : Nat) => (((s - 1).toNat : Nat) : Int) + (i : Int)) := by
          have h1 : (e - 1 - (s - 1) + 1).toNat = (e - s + 1).toNat := by omega
          rw [h1]
          refine List.map_congr_left ?_
          intro i _
          rw [hcasta]
        simp only [hidx]
        rw [copyPages_slice pages (e - s + 1).toNat (s - 1).toNat (by omega)]
        have hn1 : s - 1 + 1 = s := by omega
        have hn2 : e - 1 + 1 = e := by omega
        simp only [hn1, hn2, specExtractOutput]

/-- Claim C5: with a parseable source whose cached page count matches its
page list, `handleExtractRanges` yields exactly one output file per valid
range in input order — each named `<basename>_pages_<start>-<end>.pdf` with
its 1-based bounds and containing exactly the pages of its span — while
invalid ranges are silently dropped; an empty or all-invalid range list
yields an empty output list, not an error. -/
theorem handleExtractRanges_spec (α : Type) (name : String) (pages : List α)
    (pc : Int) (ranges : List RangeInput) (hpc : pc = pages.length) :
    handleExtractRanges ⟨name, .wellFormed pages⟩ pc ranges
      = some ((ranges.filter (isValidRange pc)).map (specExtractOutput name pages)) := by
  unfold handleExtractRanges
  by_cases hemp : (ranges.filter (isValidRange pc)).isEmpty = true
  · rw [if_pos hemp]
    rw [List.isEmpty_iff] at hemp
    rw [hemp]
    rfl
  · rw [if_neg (by simpa using hemp)]
    simp only [loadPdf]
    exact mapM_eq_map_of_some (fun r hr =>
      extractOne_valid name pages pc r hpc (List.of_mem_filter hr))

/-- Witness for C5, the design's own example: a 10-page document with
ranges `[{1,3}, {5,2}, {4,4}]` yields exactly the two files
`doc_pages_1-3.pdf` (pages 1-3) and `doc_pages_4-4.pdf` (page 4); an
all-invalid list yields no files. -/
theorem handleExtractRanges_spec_witness :
    handleExtractRanges (α := Nat) ⟨"doc.pdf", .wellFormed [1, 2, 3, 4, 5, 6, 7, 8, 9, 10]⟩ 10
        [⟨some 1, some 3⟩, ⟨some 5, some 2⟩, ⟨some 4, some 4⟩]
      = some [⟨"doc_pages_1-3.pdf", .wellFormed [1, 2, 3]⟩,
              ⟨"doc_pages_4-4.pdf", .wellFormed [4]⟩]
  ∧ handleExtractRanges (α := Nat) ⟨"doc.pdf", .wellFormed [1, 2, 3, 4, 5, 6, 7, 8, 9, 10]⟩ 10
        [⟨some 5, some 2⟩, ⟨none, some 3⟩]
      = some [] := by
  constructor
  · rw [handleExtractRanges_spec Nat "doc.pdf" [1, 2, 3, 4, 5, 6, 7, 8, 9, 10] 10
      [⟨some 1, some 3⟩, ⟨some 5, some 2⟩, ⟨some 4, some 4⟩] (by decide)]
    decide
  · rw [handleExtractRanges_spec Nat "doc.pdf" [1, 2, 3, 4, 5, 6, 7, 8, 9, 10] 10
      [⟨some 5, some 2⟩, ⟨none, some 3⟩] (by decide)]
    decide

theorem mergeLoop_wellFormed (α : Type) :
    ∀ (files : List (PdfFile α)) (pagess : List (List α)) (acc : List α),
      files.map (fun f => f.content) = pagess.map PdfContent.wellFormed →
      mergeLoop acc files = some (acc ++ pagess.flatten) := by
  intro files
  induction files with
  | nil =>
      intro pagess acc h
      have hp : pagess = [] := by
        cases pagess with
        | nil => rfl
        | cons p ps => cases h
      subst hp
      simp [mergeLoop]
  | cons f fs ih =>
      intro pagess acc h
      cases pagess with
      | nil => cases h
      | cons ps pss =>
          simp only [List.map_cons, List.cons.injEq] at h
          obtain ⟨hf, hfs⟩ := h
          rw [mergeLoop, hf]
          simp only [loadPdf, copyPages_self]
          rw [ih pss (acc ++ ps) hfs]
          simp [List.flatten_cons, List.append_assoc]

/-- Claim C6: merging any list of parseable documents produces exactly one
file named `merged.pdf` whose page list is the concatenation of the
sources' page lists in source order (so its page count is the sum of the
sources' page counts and intra-document page order is preserved); the
operation itself accepts any list, including fewer than two documents. -/
theorem handleMergePDFs_spec (α : Type) (files : List (PdfFile α))
    (pagess : List (List α))
    (h : files.map (fun f => f.content) = pagess.map PdfContent.wellFormed) :
    handleMergePDFs files = some ⟨"merged.pdf", .wellFormed pagess.flatten⟩
  ∧ pagess.flatten.length = (pagess.map List.length).sum := by
  constructor
  · unfold handleMergePDFs
    rw [mergeLoop_wellFormed α files pagess [] h]
    simp
  · exact List.length_flatten pagess

/-- Witness for C6, the design's own example: merging `X` (2 pages) and
`Y` (3 pages) gives `merged.pdf` with the 5 pages in order `X1 X2 Y1 Y2
Y3`; a single-document merge is also accepted by the operation. -/
theorem handleMergePDFs_spec_witness :
    handleMergePDFs (α := String)
        [⟨"X.pdf", .wellFormed ["X1", "X2"]⟩, ⟨"Y.pdf", .wellFormed ["Y1", "Y2", "Y3"]⟩]
      = some ⟨"merged.pdf", .wellFormed ["X1", "X2", "Y1", "Y2", "Y3"]⟩
  ∧ (["X1", "X2", "Y1", "Y2", "Y3"] : List String).length
      = ([["X1", "X2"], ["Y1", "Y2", "Y3"]].map List.length).sum
  ∧ handleMergePDFs (α := String) [⟨"X.pdf", .wellFormed ["X1", "X2"]⟩]
      = some ⟨"merged.pdf", .wellFormed ["X1", "X2"]⟩ := by
  refine ⟨?_, ?_, ?_⟩
  · exact (handleMergePDFs_spec String
      [⟨"X.pdf", .wellFormed ["X1", "X2"]⟩, ⟨"Y.pdf", .wellFormed ["Y1", "Y2", "Y3"]⟩]
      [["X1", "X2"], ["Y1", "Y2", "Y3"]] rfl).1
  · exact (handleMergePDFs_spec String
      [⟨"X.pdf", .wellFormed ["X1", "X2"]⟩, ⟨"Y.pdf", .wellFormed ["Y1", "Y2", "Y3"]⟩]
      [["X1", "X2"], ["Y1", "Y2", "Y3"]] rfl).2
  · exact (handleMergePDFs_spec String [⟨"X.pdf", .wellFormed ["X1", "X2"]⟩]
      [["X1", "X2"]] rfl).1

theorem mergeLoop_malformed {α : Type} :
    ∀ (files : List (PdfFile α)), (∃ f ∈ files, f.content = .malformed) →
      ∀ acc, mergeLoop acc files = none := by
  intro files
  induction files with
  | nil => rintro ⟨f, hf, _⟩; cases hf
  | cons g gs ih =>
      rintro ⟨f, hf, hmal⟩ acc
      rcases List.mem_cons.mp hf with hf | hf
      · subst hf
        rw [mergeLoop, hmal]
        rfl
      · cases hg : g.content with
        | malformed =>
            rw [mergeLoop, hg]
            rfl
        | wellFormed pages =>
            rw [mergeLoop, hg]
            simp only [loadPdf, copyPages_self]
            exact ih ⟨f, hf, hmal⟩ (acc ++ pages)

/-- Claim C7: when the engine fails to parse a source, the whole batch is
aborted — extract with at least one valid range on a malformed source
yields no output files, merge over a list containing a malformed source
yields no merged file — and the workspace state surrounding the caught
error is exactly the state from before the operation. -/
theorem batch_failure_aborts (α σ : Type) (st : σ) :
    (∀ (dExtract : σ → List (PdfFile α) → σ) (name : String) (pc : Int)
        (ranges : List RangeInput),
        (ranges.filter (isValidRange pc)).isEmpty = false →
        handleExtractRanges (⟨name, .malformed⟩ : PdfFile α) pc ranges = none
      ∧ runExtractBatch α σ st dExtract ⟨name, .malformed⟩ pc ranges = st)
  ∧ (∀ (dMerge : σ → PdfFile α → σ) (files : List (PdfFile α)),
        (∃ f ∈ files, f.content = .malformed) →
        handleMergePDFs files = none
      ∧ runMergeBatch α σ st dMerge files = st) := by
  constructor
  · intro dExtract name pc ranges hne
    have hext : handleExtractRanges (α := α) ⟨name, .malformed⟩ pc ranges = none := by
      unfold handleExtractRanges
      rw [if_neg (by simp [hne])]
      rfl
    refine ⟨hext, ?_⟩
    unfold runExtractBatch
    rw [hext]
  · intro dMerge files hmal
    have hmerge : handleMergePDFs files = none := by
      unfold handleMergePDFs
      rw [mergeLoop_malformed files hmal []]
      rfl
    refine ⟨hmerge, ?_⟩
    unfold runMergeBatch
    rw [hmerge]

/-- Witness for C7: a malformed source with one valid range aborts the
extract batch and leaves a concrete workspace state (here a counter with a
state-changing deliver callback) untouched, and one malformed file among
the merge sources does the same for the merge batch. -/
theorem batch_failure_aborts_witness :
    handleExtractRanges (α := Nat) ⟨"bad.pdf", .malformed⟩ 10 [⟨some 1, some 3⟩] = none
  ∧ runExtractBatch Nat Nat 0 (fun n _ => n + 1) ⟨"bad.pdf", .malformed⟩ 10
      [⟨some 1, some 3⟩] = 0
  ∧ handleMergePDFs (α := Nat)
      [⟨"a.pdf", .wellFormed [1, 2]⟩, ⟨"bad.pdf", .malformed⟩] = none
  ∧ runMergeBatch Nat Nat 0 (fun n _ => n + 1)
      [⟨"a.pdf", .wellFormed [1, 2]⟩, ⟨"bad.pdf", .malformed⟩] = 0 := by
  refine ⟨?_, ?_, ?_, ?_⟩
  · exact ((batch_failure_aborts Nat Nat 0).1 (fun n _ => n + 1) "bad.pdf" 10
      [⟨some 1, some 3⟩] (by decide)).1
  · exact ((batch_failure_aborts Nat Nat 0).1 (fun n _ => n + 1) "bad.pdf" 10
      [⟨some 1, some 3⟩] (by decide)).2
  · exact ((batch_failure_aborts Nat Nat 0).2 (fun n _ => n + 1)
      [⟨"a.pdf", .wellFormed [1, 2]⟩, ⟨"bad.pdf", .malformed⟩]
      ⟨⟨"bad.pdf", .malformed⟩, by simp, rfl⟩).1
  · exact ((batch_failure_aborts Nat Nat 0).2 (fun n _ => n + 1)
      [⟨"a.pdf", .wellFormed [1, 2]⟩, ⟨"bad.pdf", .malformed⟩]
      ⟨⟨"bad.pdf", .malformed⟩, by simp, rfl⟩).2

/-! ## Range rows of the extract form (`pdf-tools.tsx`, `PDFTools` state) -/

/-- One row of the `ranges` state in `PDFTools`: a string id and the two
text-input contents (`end` is a Lean keyword, so the field is `stop`). -/
structure ToolsRange where
  id : String
  start : String
  stop : String
  deriving DecidableEq, Repr

/-- The initial `ranges` state: `[{ id: "1", start: "", end: "" }]`. -/
def initialRanges : List ToolsRange := [⟨"1", "", ""⟩]

/-- Operation `handleAddRange` from `pdf-tools.tsx` (lines 420-423): append a fresh
empty row whose id is `(ranges.length + 1).toString()`. -/
def handleAddRange (ranges : List ToolsRange) : List ToolsRange :=
  ranges ++ [⟨toString (ranges.length + 1), "", ""⟩]

/-- The `ranges` update of `handleRemoveRange` (`pdf-tools.tsx` lines
425-427): `ranges.filter((_, i) => i !== index)`, which drops the element
at `index` and is the identity when `index` is out of bounds. -/
def handleRemoveRange (ranges : List ToolsRange) (index : Nat) : List ToolsRange :=
  ranges.eraseIdx index

/-- Claim C9 fails on the code: from the initial single row (id `"1"`),
the sequence add — remove the first row — add yields two rows both carrying
id `"2"`, because `handleAddRange` derives the new id from the current list
length, which reuses a live id once any earlier row has been removed.  The
ids of one document's range set are therefore not always distinct. -/
theorem handleAddRange_duplicate_id :
    handleAddRange (handleRemoveRange (handleAddRange initialRanges) 0)
      = [⟨"2", "", ""⟩, ⟨"2", "", ""⟩]
  ∧ ¬ (handleAddRange (handleRemoveRange (handleAddRange initialRanges) 0)).Pairwise
      (fun a b => a.id ≠ b.id) := by
  refine ⟨by decide, ?_⟩
  intro h
  have h2 : handleAddRange (handleRemoveRange (handleAddRange initialRanges) 0)
      = [⟨"2", "", ""⟩, ⟨"2", "", ""⟩] := by decide
  rw [h2] at h
  rcases h with _ | ⟨hne, _⟩
  exact hne ⟨"2", "", ""⟩ (List.mem_singleton.mpr rfl) rfl

end WebTools
